import Mathlib

/-!
# Verification of the pydoop MapReduce pipes worker

Shallow embedding of the core of `pydoop/mapreduce/pipes.py` and
`pydoop/mapreduce/api.py`: the job configuration store, the task context
teardown, and the downlink command-dispatch state machine (`BinaryProtocol`,
`Context`, `run_task`).

Modelling conventions:
* raw byte strings from the wire are opaque values of type `Bytes` (the
  framed stream reader/writer is an external collaborator, out of scope);
* user components (mapper, reducer, ...) are opaque: the engine's calls into
  them are recorded as trace events, and the component factory is described
  by which optional components it supplies;
* exceptions are modelled by an explicit `fatal` outcome carrying a message;
* Python dicts are modelled as association lists with insert-or-overwrite
  semantics (insertion order preserved, as in Python 3 dicts).
-/

namespace Pydoop

/-- Raw byte strings (length-prefixed `b` wire fields) as opaque lists. -/
abbrev Bytes := List Nat

/-! ## Python string helpers used by `JobConf.get_bool`

`get_bool` calls `v.strip().lower()`.  We model `strip` and `lower` on the
character list of the string (ASCII fragment of the Python semantics, which
covers every configuration value the code compares against). -/

/-- Python `str.lower` on one character (ASCII range). -/
def pyLowerChar (c : Char) : Char :=
  if 'A' ≤ c ∧ c ≤ 'Z' then Char.ofNat (c.toNat + 32) else c

/-- Characters removed by Python `str.strip()` (ASCII whitespace). -/
def pySpace (c : Char) : Bool :=
  c = ' ' ∨ c = '\t' ∨ c = '\n' ∨ c = '\r'

/-- Python `s.strip()`: drop leading and trailing whitespace. -/
def pyStrip (l : List Char) : List Char :=
  ((l.dropWhile pySpace).reverse.dropWhile pySpace).reverse

/-- Python `s.strip().lower()` applied to a string's characters. -/
def stripLower (s : String) : List Char :=
  (pyStrip s.data).map pyLowerChar

/-! ## Dicts as association lists (Python 3 semantics) -/

/-- Python dict assignment `m[k] = v`: overwrite in place if the key is
present, else append at the end. -/
def dictInsert : List (String × String) → String → String → List (String × String)
  | [], k, v => [(k, v)]
  | p :: m, k, v => if p.1 = k then (k, v) :: m else p :: dictInsert m k v

/-- Python `k in m` for a dict. -/
def dictHasKey (m : List (String × String)) (k : String) : Bool :=
  m.any (fun p => p.1 = k)

/-- Python `m.get(k)` for a dict: the value of the (unique) entry holding
the key. -/
def dictLookup : List (String × String) → String → Option String
  | [], _ => none
  | p :: rest, k => if p.1 = k then some p.2 else dictLookup rest k

/-- Building a dict from a list of key/value pairs, as Python
`dict(zip(keys, vals))`: later occurrences of a key overwrite earlier ones. -/
def dictOfPairs (ps : List (String × String)) : List (String × String) :=
  ps.foldl (fun m p => dictInsert m p.1 p.2) []

/-- `zip(values[::2], values[1::2])` on an even-length flat list: the
consecutive key/value pairs in order. -/
def toPairs : List String → List (String × String)
  | k :: v :: rest => (k, v) :: toPairs rest
  | _ => []

/-! ## JobConf (`pydoop/mapreduce/api.py`) -/

/-- Modelled from the spec: the legacy/current key-alias tables
(`mrv1_to_mrv2`, `mrv2_to_mrv1` imported from `pydoop.utils.conversion_tables`)
are not among the analysed sources; the spec says only that the two historical
naming schemes are mirrored at construction.  The tables are therefore taken
as an explicit parameter of the construction. -/
structure MirrorTables where
  mrv1ToMrv2 : List (String × String)
  mrv2ToMrv1 : List (String × String)

/-- One iteration of the `for k in self` loop of
`JobConf.__mirror_conf_across_versions`: for the key of `p`, record in `ext`
the aliases under each table that are absent from `self`, with `p`'s value. -/
def mirrorStep (t : MirrorTables) (self : List (String × String))
    (ext : List (String × String)) (p : String × String) :
    List (String × String) :=
  let ext1 := match dictLookup t.mrv1ToMrv2 p.1 with
    | some a => if dictHasKey self a then ext else dictInsert ext a p.2
    | none => ext
  match dictLookup t.mrv2ToMrv1 p.1 with
    | some a => if dictHasKey self a then ext1 else dictInsert ext1 a p.2
    | none => ext1

/-- `JobConf.__mirror_conf_across_versions`: for every key of the dict that
appears in an alias table and whose alias is absent, record the alias with the
same value in `ext`; finally `self.update(ext)`. -/
def mirrorConfAcrossVersions (t : MirrorTables) (self : List (String × String)) :
    List (String × String) :=
  (self.foldl (mirrorStep t self) []).foldl (fun m p => dictInsert m p.1 p.2) self

/-- `JobConf.__init__(values)`: reject odd-length flat lists
(`PydoopError`), otherwise build the dict from the consecutive pairs and
mirror keys across the two naming schemes. -/
def JobConf.build (t : MirrorTables) (values : List String) :
    Except String (List (String × String)) :=
  if values.length % 2 = 1 then
    .error "JobConf.init: len(values) should be even"
  else
    .ok (mirrorConfAcrossVersions t (dictOfPairs (toPairs values)))

/-- `JobConf.get_bool(key, default)`: fetch the string, strip and lowercase
it, map `"true"`/`"false"` to booleans; any other string falls back to the
supplied default, or raises `RuntimeError` when no default was supplied.
An absent key returns the default unconverted (`v != default` fails). -/
def JobConf.getBool (m : List (String × String)) (key : String)
    (default : Option Bool) : Except String (Option Bool) :=
  match dictLookup m key with
  | none => .ok default
  | some s =>
      let w := stripLower s
      if w = "true".data then .ok (some true)
      else if w = "false".data then .ok (some false)
      else match default with
        | none => .error "invalid bool string"
        | some d => .ok (some d)

/-! ## Protocol commands (`pydoop/mapreduce/pipes.py`)

Downlink commands carry their decoded payloads; byte payloads are opaque.
The `RUN_MAP` split is kept as an opaque byte string (the engine only stores
it in `context.input_split`). -/

inductive DCmd where
  | authReq (digest challenge : Bytes)
  | start (version : Int)
  | setJobConf (items : List String)
  | runMap (split : Bytes) (nred : Int) (pipedInput : Bool)
  | setInputTypes (keyType valueType : String)
  | mapItem (k v : Bytes)
  | runReduce (part : Int) (pipedOutput : Bool)
  | reduceKey (k : Bytes)
  | reduceValue (v : Bytes)
  | close
  | abort
  deriving DecidableEq, Repr

/-- Uplink commands written by the engine itself (`CommandWriter`).  The
status/progress/counter commands are written only on behalf of user
components, which are opaque here, so they never appear in engine traces. -/
inductive UCmd where
  | authResp (digest : Bytes)
  | output (k v : Bytes)
  | partitionedOutput (part : Int) (k v : Bytes)
  | done
  deriving DecidableEq, Repr

/-- Observable actions of the engine: calls into user components and
commands written to the uplink. -/
inductive Event where
  | mapCall (k v : Bytes)
  | reduceCall (key : Option Bytes) (values : List Bytes)
  | closeMapper
  | closeReader
  | closeWriter
  | closeReducer
  | up (c : UCmd)
  deriving DecidableEq, Repr

/-! ## Engine configuration and state -/

/-- The pluggable component factory (`pipes.Factory`): a mapper class is
required; the other components are optional.  A supplied record reader is
described by the record sequence it will yield. -/
structure Factory where
  hasReducer : Bool
  hasPartitioner : Bool
  hasWriter : Bool
  reader : Option (List (Bytes × Bytes))

/-- Whether each user component's `close()` raises when called during
`Context.close` (user components are opaque; this is the only aspect of
their behavior that the teardown logic observes). -/
structure CloseBehavior where
  mapperCloseFails : Bool
  readerCloseFails : Bool
  writerCloseFails : Bool
  reducerCloseFails : Bool
  deriving DecidableEq, Repr

/-- Modelled from the spec: `create_digest` (from
`pydoop.mapreduce.string_utils`) is not among the analysed sources; the spec
treats it as an abstract digest of a byte string under the secret, so it is a
parameter here.  `password` models `get_password()` (the shared-secret file
contents, absent when no secret is configured). -/
structure Config where
  factory : Factory
  closeB : CloseBehavior
  password : Option Bytes
  digestFn : Bytes → Bytes → Bytes
  privateEncoding : Bool

/-- The task context state (`pipes.Context.__init__` fields plus the
uplink's `private_encoding` flag and the protocol's `auth_done` flag).
Component fields record presence; the record reader additionally carries the
records it yields. -/
structure EngineState where
  authDone : Bool
  jobConf : Option (List (String × String))
  inputSplit : Option Bytes
  key : Option Bytes
  value : Option Bytes
  mapper : Bool
  reducer : Bool
  partitioner : Bool
  recordReader : Option (List (Bytes × Bytes))
  recordWriter : Bool
  nred : Option Int
  privateEncoding : Bool
  deriving DecidableEq, Repr

/-- State at `run_task` startup: fresh `Context`, unauthenticated protocol. -/
def initState (cfg : Config) : EngineState :=
  { authDone := false, jobConf := none, inputSplit := none, key := none,
    value := none, mapper := false, reducer := false, partitioner := false,
    recordReader := none, recordWriter := false, nred := none,
    privateEncoding := cfg.privateEncoding }

/-- Result of driving the protocol loop on a (finite) downlink stream. -/
inductive Outcome where
  | finished
  | exhaustedTop (st : EngineState)
  | exhaustedReduce (st : EngineState)
  | fatal (msg : String)
  deriving DecidableEq, Repr

/-- Outcome of one RUN_REDUCE grouping loop
(`for cmd, subs in groupby(self, itemgetter(0))`, pipes.py lines 272-283),
as seen by the handler frame running it.  The two non-fatal, non-exhausted
ways out differ by where the `StopIteration` that ends the iteration was
raised:
* `stopBody st rest`: raised in the loop's *body* (the CLOSE branch of the
  loop, when `__next__`'s own CLOSE dispatch saw no active mapper and passed
  `(CLOSE, None)` through): it propagates out of this handler frame, with
  `rest` of the downlink unread;
* `fellThrough st rest`: raised during the groupby's *source* advance (a
  CLOSE dispatched with a mapper active, a nested RUN_MAP pull loop, or a
  nested handler frame whose own loop body raised): the groupby reports
  end-of-iteration, the for loop ends, and the handler falls through,
  returning `None` to its caller, with `rest` unread. -/
inductive RedOutcome where
  | stopBody (st : EngineState) (rest : List DCmd)
  | fellThrough (st : EngineState) (rest : List DCmd)
  | exhausted (st : EngineState)
  | fatal (msg : String)
  deriving DecidableEq, Repr

def protocolVersion : Int := 0

def isJavaRW : String := "mapreduce.pipes.isjavarecordwriter"

def msgPreAuth : String := "received before authentication"
def msgAbort : String := "received ABORT command"
def msgAuthFail : String := "server failed to authenticate"
def msgBadVersion : String := "unknown protocol version"
def msgOddConf : String := "number of items is not even"
def msgConfLen : String := "TypeError: generator has no len"
def msgNoneGroup : String := "TypeError: cannot index None in groupby"
def msgReaderExtra : String := "record reader defined when not needed"
def msgNoReader : String := "record reader not defined"
def msgWriterExtra : String := "record writer defined when not needed"
def msgNoWriter : String := "record writer not defined"
def msgNoGetBool : String := "AttributeError: dict has no attribute get_bool"
def msgNoMapper : String := "AttributeError: NoneType has no attribute map"
def msgNoReducer : String := "AttributeError: NoneType has no attribute reduce"

/-- `BinaryProtocol.verify_digest`: with a configured secret, a wrong digest
is a fatal authentication failure, a correct one is answered with the digest
of the received digest; with no secret, verification is skipped and nothing
is written. -/
def verifyDigest (cfg : Config) (digest challenge : Bytes) :
    Except String (List Event) :=
  match cfg.password with
  | some pw =>
      if cfg.digestFn pw challenge = digest then
        .ok [Event.up (UCmd.authResp (cfg.digestFn pw digest))]
      else .error msgAuthFail
  | none => .ok []

/-! ## Context teardown (`Context.close`, pipes.py lines 474-486) -/

/-- Close attempts stop at the first component whose `close` raises. -/
def takeUntilFail : List (Event × Bool) → List (Event × Bool)
  | [] => []
  | e :: r => if e.2 then [e] else e :: takeUntilFail r

/-- The close calls `Context.close`'s `try` block would make, in source
order, each tagged with whether it raises: mapper, record reader, record
writer, reducer, skipping absent components. -/
def closeList (b : CloseBehavior) (st : EngineState) : List (Event × Bool) :=
  (if st.mapper then [(Event.closeMapper, b.mapperCloseFails)] else []) ++
  (if st.recordReader.isSome then [(Event.closeReader, b.readerCloseFails)] else []) ++
  (if st.recordWriter then [(Event.closeWriter, b.writerCloseFails)] else []) ++
  (if st.reducer then [(Event.closeReducer, b.reducerCloseFails)] else [])

/-- `Context.close`: the `try` block closes mapper, record reader, record
writer, reducer in that order (absent components are skipped; the first
close that raises skips the rest); the `finally` block always writes DONE.
The boolean result tells whether an error is propagating to the caller
after DONE was written. -/
def contextClose (b : CloseBehavior) (st : EngineState) : List Event × Bool :=
  let attempted := takeUntilFail (closeList b st)
  (attempted.map Prod.fst ++ [Event.up UCmd.done], attempted.any Prod.snd)

/-! ## The protocol state machine -/

def isReduceKeyCmd : DCmd → Bool
  | .reduceKey _ => true
  | _ => false

/-- The payloads of the maximal leading run of REDUCE_VALUE commands, and
the commands after that run (the lazy value group that `groupby` hands to
one reducer invocation). -/
def takeValues : List DCmd → List Bytes × List DCmd
  | .reduceValue v :: rest => let r := takeValues rest; (v :: r.1, r.2)
  | l => ([], l)

theorem takeValues_length_le : ∀ l : List DCmd, (takeValues l).2.length ≤ l.length := by
  intro l
  induction l with
  | nil => simp [takeValues]
  | cons c rest ih => cases c <;> simp [takeValues] <;> try omega

theorem length_dropWhile_le (p : DCmd → Bool) :
    ∀ l : List DCmd, (l.dropWhile p).length ≤ l.length := by
  intro l
  induction l with
  | nil => simp
  | cons c rest ih =>
      rw [List.dropWhile_cons]
      split <;> simp <;> try omega

/-- The RUN_REDUCE grouping loop
(`for cmd, subs in groupby(self, itemgetter(0))`, pipes.py lines 272-283):
each downlink command is obtained through a recursive `__next__` call, and
maximal runs of equal commands form the groups.  A REDUCE_KEY group sets the
current key from its first element (the rest of the run is discarded by
`groupby`); a REDUCE_VALUE group is one reducer invocation over the run's
payloads; CLOSE finalizes the task (see `RedOutcome` for how the resulting
`StopIteration` ends the loop).  A command whose handler returns `None`
crashes the loop (`itemgetter(0)` on `None` is a TypeError) after its side
effects.  A nested RUN_MAP or RUN_REDUCE re-enters the task machinery: a
nested RUN_MAP with a reader runs its pull loop, closes the task and raises
`StopIteration` from the source advance, so this loop falls through and the
top level resumes; a nested RUN_REDUCE runs its own grouping loop, whose
body-raised `StopIteration` propagates out of the nested handler and ends
this loop (fall through), while a nested handler that merely falls through
returns `None` to this groupby — a TypeError. -/
def reduceLoop (cfg : Config) : EngineState → List DCmd → List Event × RedOutcome
  | st, [] => ([], .exhausted st)
  | st, .reduceKey k :: rest =>
      if st.authDone then
        reduceLoop cfg { st with key := some k } (rest.dropWhile isReduceKeyCmd)
      else ([], .fatal msgPreAuth)
  | st, .reduceValue v :: rest =>
      if st.authDone then
        if st.reducer then
          let t := takeValues rest
          let r := reduceLoop cfg st t.2
          (Event.reduceCall st.key (v :: t.1) :: r.1, r.2)
        else ([], .fatal msgNoReducer)
      else ([], .fatal msgPreAuth)
  | st, .close :: rest =>
      if st.authDone then
        if st.mapper then
          -- __next__'s own CLOSE branch runs during the source advance:
          -- context.close(), then StopIteration ends this groupby and the
          -- handler falls through
          ((contextClose cfg.closeB st).1, .fellThrough st rest)
        else
          -- (CLOSE, None) reaches the loop body: context.close(), then the
          -- body's StopIteration propagates out of this handler frame
          ((contextClose cfg.closeB st).1, .stopBody st rest)
      else ([], .fatal msgPreAuth)
  | st, .abort :: _ =>
      if st.authDone then ([], .fatal msgAbort) else ([], .fatal msgPreAuth)
  | _st, .authReq digest challenge :: _ =>
      match verifyDigest cfg digest challenge with
      | .error e => ([], .fatal e)
      | .ok evs => (evs, .fatal msgNoneGroup)
  | st, .start v :: _ =>
      if st.authDone then
        if v = protocolVersion then ([], .fatal msgNoneGroup)
        else ([], .fatal msgBadVersion)
      else ([], .fatal msgPreAuth)
  | st, .setJobConf items :: _ =>
      if st.authDone then
        if items.length % 2 = 1 then ([], .fatal msgOddConf)
        else ([], .fatal msgConfLen)
      else ([], .fatal msgPreAuth)
  | st, .setInputTypes _ _ :: _ =>
      if st.authDone then ([], .fatal msgNoneGroup) else ([], .fatal msgPreAuth)
  | st, .mapItem k v :: _ =>
      if st.authDone then
        if st.mapper then ([Event.mapCall k v], .fatal msgNoneGroup)
        else ([], .fatal msgNoMapper)
      else ([], .fatal msgPreAuth)
  | st, .runMap split nred pipedInput :: rest =>
      -- the nested RUN_MAP handler is the same elif as at top level; only
      -- the continuation differs: with a reader, the pull loop runs, the
      -- task is closed, and the handler's StopIteration ends THIS groupby
      -- (fall through; the top level will resume on `rest`); with piped
      -- input the handler returns None, a TypeError in this groupby
      if st.authDone then
        let st := { st with inputSplit := some split,
                            recordReader := cfg.factory.reader }
        if st.recordReader.isSome && pipedInput then ([], .fatal msgReaderExtra)
        else if st.recordReader.isNone && !pipedInput then ([], .fatal msgNoReader)
        else if nred < 1 then
          let st := { st with privateEncoding := false }
          match st.jobConf with
          | none => ([], .fatal msgNoGetBool)
          | some conf =>
              match JobConf.getBool conf isJavaRW none with
              | .error e => ([], .fatal e)
              | .ok b =>
                  let pipedOutput := b = some true
                  let st := { st with recordWriter := cfg.factory.hasWriter }
                  if cfg.factory.hasWriter ∧ pipedOutput then
                    ([], .fatal msgWriterExtra)
                  else if ¬cfg.factory.hasWriter ∧ ¬pipedOutput then
                    ([], .fatal msgNoWriter)
                  else
                    let st := { st with nred := some nred, mapper := true,
                                        partitioner := cfg.factory.hasPartitioner }
                    match st.recordReader with
                    | some records =>
                        let evs := records.map (fun r => Event.mapCall r.1 r.2)
                        let st := match records.getLast? with
                          | some r => { st with key := some r.1, value := some r.2 }
                          | none => st
                        (evs ++ (contextClose cfg.closeB st).1,
                          .fellThrough st rest)
                    | none => ([], .fatal msgNoneGroup)
        else
          let st := { st with nred := some nred, mapper := true,
                              partitioner := cfg.factory.hasPartitioner }
          match st.recordReader with
          | some records =>
              let evs := records.map (fun r => Event.mapCall r.1 r.2)
              let st := match records.getLast? with
                | some r => { st with key := some r.1, value := some r.2 }
                | none => st
              (evs ++ (contextClose cfg.closeB st).1, .fellThrough st rest)
          | none => ([], .fatal msgNoneGroup)
      else ([], .fatal msgPreAuth)
  | st, .runReduce _part pipedOutput :: rest =>
      -- nested RUN_REDUCE: the handler runs its own grouping loop over the
      -- same downlink, then this loop interprets how it came back
      if st.authDone then
        let st := { st with reducer := cfg.factory.hasReducer,
                            recordWriter := cfg.factory.hasWriter }
        if cfg.factory.hasWriter && pipedOutput then ([], .fatal msgWriterExtra)
        else if !cfg.factory.hasWriter && !pipedOutput then ([], .fatal msgNoWriter)
        else
          let r := reduceLoop cfg st rest
          match r.2 with
          | .stopBody st2 rest2 =>
              -- the nested loop body's StopIteration propagates out of the
              -- nested handler, i.e. out of this groupby's source advance:
              -- this loop ends and this handler falls through
              (r.1, .fellThrough st2 rest2)
          | .fellThrough _ _ =>
              -- the nested handler returned None to this groupby
              (r.1, .fatal msgNoneGroup)
          | o => (r.1, o)
      else ([], .fatal msgPreAuth)
  termination_by _ l => l.length
  decreasing_by
    all_goals simp_wf
    all_goals
      first
        | omega
        | (have h1 := takeValues_length_le rest
           have h2 := length_dropWhile_le isReduceKeyCmd rest
           omega)

/-- How much downlink a grouping loop hands back to its caller. -/
def redRestLength : RedOutcome → Nat
  | .stopBody _ rest => rest.length
  | .fellThrough _ rest => rest.length
  | _ => 0

theorem reduceLoop_rest_le_aux (cfg : Config) :
    ∀ (n : Nat) (cmds : List DCmd) (st : EngineState), cmds.length ≤ n →
      redRestLength (reduceLoop cfg st cmds).2 ≤ cmds.length := by
  intro n
  induction n with
  | zero =>
      intro cmds st hlen
      match cmds with
      | [] => simp [reduceLoop, redRestLength]
      | c :: rest => simp at hlen
  | succ n ih =>
      intro cmds st hlen
      match cmds with
      | [] => simp [reduceLoop, redRestLength]
      | c :: rest =>
        have hr : rest.length ≤ n := by simp [List.length_cons] at hlen; omega
        cases c with
        | reduceKey k =>
            obtain ⟨auth, jc, isp, ky, vl, mp, rdc, pt, rr, rwr, nr, pe⟩ := st
            cases auth
            · simp [reduceLoop, redRestLength]
            · have h1 := length_dropWhile_le isReduceKeyCmd rest
              have h2 := ih (rest.dropWhile isReduceKeyCmd)
                ⟨true, jc, isp, some k, vl, mp, rdc, pt, rr, rwr, nr, pe⟩
                (by omega)
              simp only [reduceLoop, if_true, List.length_cons]
              simp only [List.length_cons] at h2 ⊢
              omega
        | reduceValue v =>
            obtain ⟨auth, jc, isp, ky, vl, mp, rdc, pt, rr, rwr, nr, pe⟩ := st
            cases auth
            · simp [reduceLoop, redRestLength]
            · cases rdc
              · simp [reduceLoop, redRestLength]
              · have h1 := takeValues_length_le rest
                have h2 := ih (takeValues rest).2
                  ⟨true, jc, isp, ky, vl, mp, true, pt, rr, rwr, nr, pe⟩
                  (by omega)
                simp only [reduceLoop, if_true, List.length_cons]
                omega
        | close =>
            rw [reduceLoop]
            by_cases ha : st.authDone
            · by_cases hmp : st.mapper <;> simp [ha, hmp, redRestLength]
            · simp [ha, redRestLength]
        | abort =>
            rw [reduceLoop]
            by_cases ha : st.authDone <;> simp [ha, redRestLength]
        | authReq d ch =>
            rw [reduceLoop]
            rcases hv : verifyDigest cfg d ch with e | evs <;>
              simp [redRestLength]
        | start v =>
            rw [reduceLoop]
            by_cases ha : st.authDone
            · by_cases hver : v = protocolVersion <;>
                simp [ha, hver, redRestLength]
            · simp [ha, redRestLength]
        | setJobConf items =>
            rw [reduceLoop]
            by_cases ha : st.authDone
            · by_cases hodd : items.length % 2 = 1 <;>
                simp [ha, hodd, redRestLength]
            · simp [ha, redRestLength]
        | setInputTypes kt vt =>
            rw [reduceLoop]
            by_cases ha : st.authDone <;> simp [ha, redRestLength]
        | mapItem k v =>
            rw [reduceLoop]
            by_cases ha : st.authDone
            · by_cases hmp : st.mapper <;> simp [ha, hmp, redRestLength]
            · simp [ha, redRestLength]
        | runMap sp nred piped =>
            rw [reduceLoop]
            by_cases ha : st.authDone
            · simp only [ha, if_true]
              repeat' split
              all_goals simp [redRestLength]
            · simp [ha, redRestLength]
        | runReduce part piped =>
            obtain ⟨auth, jc, isp, ky, vl, mp, rdc, pt, rr, rwr, nr, pe⟩ := st
            cases auth
            · simp [reduceLoop, redRestLength]
            by_cases h1 : (cfg.factory.hasWriter && piped) = true
            · simp [reduceLoop, h1, redRestLength]
            by_cases h2 : (!cfg.factory.hasWriter && !piped) = true
            · simp [reduceLoop, h1, h2, redRestLength]
            have hih := ih rest ⟨true, jc, isp, ky, vl, mp,
              cfg.factory.hasReducer, pt, rr, cfg.factory.hasWriter, nr, pe⟩ hr
            rcases hv : (reduceLoop cfg ⟨true, jc, isp, ky, vl, mp,
                cfg.factory.hasReducer, pt, rr, cfg.factory.hasWriter, nr, pe⟩
                rest).2 with ⟨st2, r2⟩ | ⟨st2, r2⟩ | st2 | e
            all_goals rw [hv] at hih
            all_goals simp only [redRestLength] at hih
            all_goals simp [reduceLoop, h1, h2, hv, redRestLength]
            all_goals omega

/-- The grouping loop always hands back a suffix-sized remainder of the
downlink it was given. -/
theorem reduceLoop_rest_le (cfg : Config) (cmds : List DCmd)
    (st : EngineState) :
    redRestLength (reduceLoop cfg st cmds).2 ≤ cmds.length :=
  reduceLoop_rest_le_aux cfg cmds.length cmds st le_rfl

/-- The engine: `run_task`'s `for _ in connection.downlink: pass` loop
driving `BinaryProtocol.__next__` on each decoded downlink command.
Returns the observable trace and the outcome (`finished` = `StopIteration`
ended the loop; `exhaustedTop`/`exhaustedReduce` = the stream ended with the
loop still reading, at top level or in a grouping loop; `fatal` = an
uncaught exception killed the worker). -/
def run (cfg : Config) : EngineState → List DCmd → List Event × Outcome
  | st, [] => ([], .exhaustedTop st)
  | st, .authReq digest challenge :: rest =>
      -- AUTHENTICATION_REQ is dispatched in any auth state
      match verifyDigest cfg digest challenge with
      | .error e => ([], .fatal e)
      | .ok evs =>
          let r := run cfg { st with authDone := true } rest
          (evs ++ r.1, r.2)
  | st, .start v :: rest =>
      if st.authDone then
        if v = protocolVersion then run cfg st rest
        else ([], .fatal msgBadVersion)
      else ([], .fatal msgPreAuth)
  | st, .setJobConf items :: _rest =>
      -- read_job_conf: an odd item count raises RuntimeError; an even count
      -- reaches `JobConf(t[i:i+2] for i in range(0, n, 2))` (pipes.py:172),
      -- which passes a generator to JobConf.__init__, whose
      -- `1 & len(values)` (api.py:71) raises TypeError (a generator has no
      -- len).  Either way the worker dies: in this snapshot the context can
      -- never acquire a JobConf through SET_JOB_CONF.
      if st.authDone then
        if items.length % 2 = 1 then ([], .fatal msgOddConf)
        else ([], .fatal msgConfLen)
      else ([], .fatal msgPreAuth)
  | st, .runMap split nred pipedInput :: rest =>
      if st.authDone then
        let st := { st with inputSplit := some split,
                            recordReader := cfg.factory.reader }
        if st.recordReader.isSome && pipedInput then ([], .fatal msgReaderExtra)
        else if st.recordReader.isNone && !pipedInput then ([], .fatal msgNoReader)
        else if nred < 1 then
          -- map-only job: force non-private encoding, then check the record
          -- writer against mapreduce.pipes.isjavarecordwriter
          let st := { st with privateEncoding := false }
          match st.jobConf with
          | none =>
              -- context.job_conf is still the plain `{}` dict from
              -- Context.__init__: it has no get_bool attribute
              ([], .fatal msgNoGetBool)
          | some conf =>
              match JobConf.getBool conf isJavaRW none with
              | .error e => ([], .fatal e)
              | .ok b =>
                  let pipedOutput := b = some true
                  let st := { st with recordWriter := cfg.factory.hasWriter }
                  if cfg.factory.hasWriter ∧ pipedOutput then
                    ([], .fatal msgWriterExtra)
                  else if ¬cfg.factory.hasWriter ∧ ¬pipedOutput then
                    ([], .fatal msgNoWriter)
                  else
                    let st := { st with nred := some nred, mapper := true,
                                        partitioner := cfg.factory.hasPartitioner }
                    match st.recordReader with
                    | some records =>
                        -- worker-driven pull loop, then close and stop
                        let evs := records.map (fun r => Event.mapCall r.1 r.2)
                        let st := match records.getLast? with
                          | some r => { st with key := some r.1, value := some r.2 }
                          | none => st
                        (evs ++ (contextClose cfg.closeB st).1, .finished)
                    | none => run cfg st rest
        else
          let st := { st with nred := some nred, mapper := true,
                              partitioner := cfg.factory.hasPartitioner }
          match st.recordReader with
          | some records =>
              -- worker-driven pull loop: one map call per record, then
              -- context.close(); `finally: raise StopIteration` ends the
              -- protocol loop whatever close did
              let evs := records.map (fun r => Event.mapCall r.1 r.2)
              let st := match records.getLast? with
                | some r => { st with key := some r.1, value := some r.2 }
                | none => st
              (evs ++ (contextClose cfg.closeB st).1, .finished)
          | none => run cfg st rest
      else ([], .fatal msgPreAuth)
  | st, .setInputTypes _ _ :: rest =>
      -- swaps the key/value deserializers for recognized Hadoop type names;
      -- payloads are opaque here, so there is no modelled state change
      if st.authDone then run cfg st rest else ([], .fatal msgPreAuth)
  | st, .mapItem k v :: rest =>
      if st.authDone then
        let st := { st with key := some k, value := some v }
        if st.mapper then
          let r := run cfg st rest
          (Event.mapCall k v :: r.1, r.2)
        else ([], .fatal msgNoMapper)
      else ([], .fatal msgPreAuth)
  | st, .runReduce _part pipedOutput :: rest =>
      if st.authDone then
        let st := { st with reducer := cfg.factory.hasReducer,
                            recordWriter := cfg.factory.hasWriter }
        if cfg.factory.hasWriter && pipedOutput then ([], .fatal msgWriterExtra)
        else if !cfg.factory.hasWriter && !pipedOutput then ([], .fatal msgNoWriter)
        else
          -- (private_encoding only swaps deserializers: opaque payloads)
          match hres : (reduceLoop cfg st rest).2 with
          | .stopBody _ _ =>
              -- the loop body's StopIteration propagates out of the handler
              -- into run_task's for statement, which ends normally
              ((reduceLoop cfg st rest).1, .finished)
          | .fellThrough st2 rest2 =>
              -- the handler falls through and returns None; run_task
              -- discards it and the top-level loop resumes
              ((reduceLoop cfg st rest).1 ++ (run cfg st2 rest2).1,
               (run cfg st2 rest2).2)
          | .exhausted st2 => ((reduceLoop cfg st rest).1, .exhaustedReduce st2)
          | .fatal e => ((reduceLoop cfg st rest).1, .fatal e)
      else ([], .fatal msgPreAuth)
  | st, .reduceKey _ :: rest =>
      -- outside RUN_REDUCE, __next__ returns (cmd, k) to run_task, which
      -- discards it and keeps reading
      if st.authDone then run cfg st rest else ([], .fatal msgPreAuth)
  | st, .reduceValue _ :: rest =>
      if st.authDone then run cfg st rest else ([], .fatal msgPreAuth)
  | st, .close :: rest =>
      if st.authDone then
        if st.mapper then
          -- context.close(); `finally: raise StopIteration` ends the loop
          ((contextClose cfg.closeB st).1, .finished)
        else run cfg st rest  -- returns (CLOSE, None); run_task discards it
      else ([], .fatal msgPreAuth)
  | st, .abort :: _ =>
      if st.authDone then ([], .fatal msgAbort) else ([], .fatal msgPreAuth)
  termination_by _ l => l.length
  decreasing_by
    all_goals simp_wf
    all_goals try omega
    · -- the grouping loop hands back a suffix of its input
      have hle := reduceLoop_rest_le cfg rest
        { st with reducer := cfg.factory.hasReducer,
                  recordWriter := cfg.factory.hasWriter }
      rw [hres] at hle
      simp [redRestLength] at hle
      omega

/-- Unfolding of the RUN_REDUCE dispatch step of `run` with a plain match
on the grouping loop's outcome (the definition's match carries an equation
for the termination argument, which blocks rewriting). -/
theorem run_runReduce_step (cfg : Config) (st st' : EngineState) (part : Int)
    (piped : Bool) (rest : List DCmd) (hauth : st.authDone = true)
    (h1 : ¬(cfg.factory.hasWriter && piped) = true)
    (h2 : ¬(!cfg.factory.hasWriter && !piped) = true)
    (hst : st' = { st with reducer := cfg.factory.hasReducer,
                           recordWriter := cfg.factory.hasWriter }) :
    run cfg st (.runReduce part piped :: rest) =
      (match (reduceLoop cfg st' rest).2 with
       | .stopBody _ _ => ((reduceLoop cfg st' rest).1, .finished)
       | .fellThrough st2 rest2 =>
           ((reduceLoop cfg st' rest).1 ++ (run cfg st2 rest2).1,
            (run cfg st2 rest2).2)
       | .exhausted st2 => ((reduceLoop cfg st' rest).1, .exhaustedReduce st2)
       | .fatal e => ((reduceLoop cfg st' rest).1, .fatal e)) := by
  subst hst
  rw [run, if_pos hauth, if_neg h1, if_neg h2]
  split
  all_goals rename_i heq
  all_goals split
  all_goals rename_i heq2
  all_goals rw [heq] at heq2
  all_goals injection heq2
  all_goals subst_vars
  all_goals rfl

/-! ## Helper lemmas -/

theorem takeUntilFail_first_fail (pre post : List (Event × Bool)) (e : Event)
    (hpre : ∀ p ∈ pre, p.2 = false) :
    takeUntilFail (pre ++ (e, true) :: post) = pre ++ [(e, true)] := by
  induction pre with
  | nil => simp [takeUntilFail]
  | cons p pre ih =>
      have hp : p.2 = false := hpre p (List.mem_cons_self p pre)
      simp [takeUntilFail, hp,
            ih (fun q hq => hpre q (List.mem_cons_of_mem p hq))]

theorem takeUntilFail_singleton (e : Event × Bool) : takeUntilFail [e] = [e] := by
  rcases e with ⟨ev, fl⟩
  cases fl <;> simp [takeUntilFail]

/-! ## Claims -/

/-- C1: In the RUN_REDUCE grouping loop, the downlink sequence
REDUCE_KEY(k1), REDUCE_VALUE(v1), REDUCE_VALUE(v2), REDUCE_KEY(k2),
REDUCE_VALUE(v3), CLOSE yields exactly two reducer invocations — the first
with current key k1 and value sequence [v1, v2] in order, the second with
key k2 and [v3] — and CLOSE is followed by exactly one DONE on the uplink. -/
theorem c1_reduce_grouping
    (hp pe : Bool) (b : CloseBehavior) (pw : Option Bytes)
    (f : Bytes → Bytes → Bytes) (rd : Option (List (Bytes × Bytes)))
    (part : Int) (k1 v1 v2 k2 v3 : Bytes) :
    run { factory := { hasReducer := true, hasPartitioner := hp,
                       hasWriter := false, reader := rd },
          closeB := b, password := pw, digestFn := f, privateEncoding := pe }
      { initState { factory := { hasReducer := true, hasPartitioner := hp,
                                 hasWriter := false, reader := rd },
                    closeB := b, password := pw, digestFn := f,
                    privateEncoding := pe } with authDone := true }
      [.runReduce part true, .reduceKey k1, .reduceValue v1, .reduceValue v2,
       .reduceKey k2, .reduceValue v3, .close] =
      ([Event.reduceCall (some k1) [v1, v2], Event.reduceCall (some k2) [v3],
        Event.closeReducer, Event.up UCmd.done], .finished) := by
  refine Eq.trans
    (run_runReduce_step _ _ _ part true _ rfl (by simp) (by simp) rfl) ?_
  simp [reduceLoop, initState, contextClose, closeList, takeValues,
        takeUntilFail_singleton, isReduceKeyCmd]

/-- C5: receiving ABORT — at any point: at top level (before, between, or
after task-type dispatch, in any context state) or inside the RUN_REDUCE
grouping loop — kills the engine fatally: nothing more is written to the
uplink (in particular no DONE), no component close is invoked (no events at
all are produced), and the rest of the stream is never read. -/
theorem c5_abort_is_bare_fatal (cfg : Config) (st : EngineState) (rest : List DCmd) :
    run cfg st (.abort :: rest) =
      ([], .fatal (if st.authDone then msgAbort else msgPreAuth)) ∧
    reduceLoop cfg st (.abort :: rest) =
      ([], .fatal (if st.authDone then msgAbort else msgPreAuth)) := by
  cases h : st.authDone <;> simp [run, reduceLoop, h]

/-- Elements attempted by the teardown come from the close list. -/
theorem mem_takeUntilFail {p : Event × Bool} :
    ∀ {l : List (Event × Bool)}, p ∈ takeUntilFail l → p ∈ l := by
  intro l
  induction l with
  | nil => simp [takeUntilFail]
  | cons e r ih =>
      simp only [takeUntilFail]
      split
      · intro h; simp at h; simp [h]
      · intro h
        rcases List.mem_cons.1 h with h | h
        · simp [h]
        · exact List.mem_cons_of_mem _ (ih h)

/-- Every entry of the close list is a component-close event. -/
theorem closeList_fst_ne_done (b : CloseBehavior) (st : EngineState) :
    ∀ p ∈ closeList b st, p.1 ≠ Event.up UCmd.done := by
  intro p hp
  simp only [closeList, List.mem_append] at hp
  rcases hp with ((h | h) | h) | h <;> (split at h <;> simp_all)

/-- C4: `Context.close` tears the active components down in the fixed order
mapper, record reader, record writer, reducer, skipping absent ones, and the
DONE signal is written to the uplink after the teardown in every case — the
trace always ends with exactly one DONE, whatever component closes raise —
and when no close raises, the close calls are exactly the present components
in that fixed order. -/
theorem c4_close_teardown_and_done (b : CloseBehavior) (st : EngineState) :
    (contextClose b st).1.getLast? = some (Event.up UCmd.done) ∧
    (∀ e ∈ (contextClose b st).1.dropLast, e ≠ Event.up UCmd.done) ∧
    (contextClose ⟨false, false, false, false⟩ st).1 =
      (if st.mapper then [Event.closeMapper] else []) ++
      (if st.recordReader.isSome then [Event.closeReader] else []) ++
      (if st.recordWriter then [Event.closeWriter] else []) ++
      (if st.reducer then [Event.closeReducer] else []) ++
      [Event.up UCmd.done] := by
  refine ⟨?_, ?_, ?_⟩
  · simp [contextClose]
  · intro e he
    simp only [contextClose, List.dropLast_concat] at he
    rcases List.mem_map.1 he with ⟨p, hp, rfl⟩
    exact closeList_fst_ne_done b st p (mem_takeUntilFail hp)
  · simp only [contextClose, closeList]
    split_ifs <;> simp [takeUntilFail]

/-- Witness for C4: a context holding all four components, every close
raising: the trace still ends with DONE, the teardown part contains no DONE,
and with no close raising the components are closed in the fixed order. -/
theorem c4_witness :
    (contextClose ⟨true, true, true, true⟩
        ⟨true, none, none, none, none, true, true, false, some [], true, none,
          true⟩).1.getLast? = some (Event.up UCmd.done) ∧
    (Event.closeMapper ∈ (contextClose ⟨true, true, true, true⟩
        ⟨true, none, none, none, none, true, true, false, some [], true, none,
          true⟩).1.dropLast →
      Event.closeMapper ≠ Event.up UCmd.done) ∧
    (contextClose ⟨false, false, false, false⟩
        ⟨true, none, none, none, none, true, true, false, some [], true, none,
          true⟩).1 =
      [Event.closeMapper, Event.closeReader, Event.closeWriter,
       Event.closeReducer, Event.up UCmd.done] :=
  ⟨(c4_close_teardown_and_done ⟨true, true, true, true⟩
      ⟨true, none, none, none, none, true, true, false, some [], true, none,
        true⟩).1,
   fun h =>
    (c4_close_teardown_and_done ⟨true, true, true, true⟩
      ⟨true, none, none, none, none, true, true, false, some [], true, none,
        true⟩).2.1 Event.closeMapper h,
   by
    simpa using
      (c4_close_teardown_and_done ⟨true, true, true, true⟩
        ⟨true, none, none, none, none, true, true, false, some [], true, none,
          true⟩).2.2⟩

/-- C9 (implicit): if a component's close raises during `Context.close`, the
components later in the teardown order are not closed at all — the teardown
stops at the first failing component — while DONE is still sent afterwards
and the error keeps propagating to the caller.  Stated for any of the four
components: wherever the first failing close sits in the teardown list
(mapper, record reader, record writer or reducer), exactly the closes before
it and its own are attempted, then DONE, and the error flag is set. -/
theorem c9_teardown_stops_at_first_failure (b : CloseBehavior) (st : EngineState)
    (pre post : List (Event × Bool)) (e : Event)
    (hsplit : closeList b st = pre ++ (e, true) :: post)
    (hpre : ∀ p ∈ pre, p.2 = false) :
    contextClose b st = (pre.map Prod.fst ++ [e, Event.up UCmd.done], true) := by
  simp [contextClose, hsplit, takeUntilFail_first_fail pre post e hpre]

/-- Witness for C9: a context holding all four components whose record
writer close raises: the mapper and reader closes (which come first) run,
the writer close raises, the reducer — later in the order — is never
closed, DONE is still sent, and the error propagates. -/
theorem c9_witness :
    (closeList ⟨false, false, true, false⟩
        ⟨true, none, none, none, none, true, true, false, some [], true,
          none, true⟩ =
      [(Event.closeMapper, false), (Event.closeReader, false)] ++
        (Event.closeWriter, true) :: [(Event.closeReducer, false)]) ∧
    contextClose ⟨false, false, true, false⟩
        ⟨true, none, none, none, none, true, true, false, some [], true,
          none, true⟩ =
      ([Event.closeMapper, Event.closeReader, Event.closeWriter,
        Event.up UCmd.done], true) :=
  ⟨by simp [closeList], by
    simpa using c9_teardown_stops_at_first_failure
      ⟨false, false, true, false⟩
      ⟨true, none, none, none, none, true, true, false, some [], true,
        none, true⟩
      [(Event.closeMapper, false), (Event.closeReader, false)]
      [(Event.closeReducer, false)] Event.closeWriter
      (by simp [closeList]) (by decide)⟩

/-- C3: with a shared secret pw configured, AUTHENTICATION_REQUEST(digest,
challenge) succeeds if and only if the presented digest equals
digest(pw, challenge); on success the engine writes exactly one
AUTHENTICATION_RESPONSE carrying digest(pw, digest(pw, challenge)) and goes
on authenticated; on mismatch it dies fatally without writing a response. -/
theorem c3_authentication (fa : Factory) (b : CloseBehavior) (pe : Bool)
    (f : Bytes → Bytes → Bytes) (pw digest challenge : Bytes)
    (st : EngineState) (rest : List DCmd) :
    (digest = f pw challenge →
      run ⟨fa, b, some pw, f, pe⟩ st (.authReq digest challenge :: rest) =
        (Event.up (UCmd.authResp (f pw (f pw challenge))) ::
            (run ⟨fa, b, some pw, f, pe⟩ { st with authDone := true } rest).1,
         (run ⟨fa, b, some pw, f, pe⟩ { st with authDone := true } rest).2)) ∧
    (digest ≠ f pw challenge →
      run ⟨fa, b, some pw, f, pe⟩ st (.authReq digest challenge :: rest) =
        ([], .fatal msgAuthFail)) := by
  constructor
  · intro h
    subst h
    simp [run, verifyDigest]
  · intro h
    have h' : ¬f pw challenge = digest := fun hh => h hh.symm
    simp [run, verifyDigest, h']

/-- Witness for C3, success side: secret [1], challenge [2], digest
function concatenation; the presented digest [1, 2] matches and the
response is digest([1], digest([1], [2])) = [1, 1, 2]. -/
theorem c3_witness :
    (([1, 2] : Bytes) = (fun s c : Bytes => s ++ c) [1] [2]) ∧
    run ⟨⟨false, false, false, none⟩, ⟨false, false, false, false⟩, some [1],
          fun s c : Bytes => s ++ c, true⟩
        (initState ⟨⟨false, false, false, none⟩, ⟨false, false, false, false⟩,
          some [1], fun s c : Bytes => s ++ c, true⟩)
        [.authReq [1, 2] [2]] =
      (Event.up (UCmd.authResp ((fun s c : Bytes => s ++ c) [1]
            ((fun s c : Bytes => s ++ c) [1] [2]))) ::
          (run ⟨⟨false, false, false, none⟩, ⟨false, false, false, false⟩,
              some [1], fun s c : Bytes => s ++ c, true⟩
            { initState ⟨⟨false, false, false, none⟩, ⟨false, false, false, false⟩,
                some [1], fun s c : Bytes => s ++ c, true⟩ with authDone := true }
            []).1,
       (run ⟨⟨false, false, false, none⟩, ⟨false, false, false, false⟩,
            some [1], fun s c : Bytes => s ++ c, true⟩
          { initState ⟨⟨false, false, false, none⟩, ⟨false, false, false, false⟩,
              some [1], fun s c : Bytes => s ++ c, true⟩ with authDone := true }
          []).2) :=
  ⟨rfl,
    (c3_authentication ⟨false, false, false, none⟩ ⟨false, false, false, false⟩
      true (fun s c : Bytes => s ++ c) [1] [1, 2] [2] _ []).1 rfl⟩

/-- C2: in the RUN_MAP pull path — the factory supplied a record reader, the
input is not host-piped, and the task has reduces so the map-only branch is
skipped — the engine itself pulls the reader's records, invoking the mapper
exactly once per record in the reader's order with context key/value set to
that record, then closes the task: the mapper and reader are closed, exactly
one DONE is written, and any further downlink commands are never read. -/
theorem c2_map_pull_path (hr hp hw pe : Bool) (pw : Option Bytes)
    (f : Bytes → Bytes → Bytes) (records : List (Bytes × Bytes))
    (split : Bytes) (nred : Int) (extra : List DCmd) (h : 1 ≤ nred) :
    run ⟨⟨hr, hp, hw, some records⟩, ⟨false, false, false, false⟩, pw, f, pe⟩
      { initState ⟨⟨hr, hp, hw, some records⟩, ⟨false, false, false, false⟩,
          pw, f, pe⟩ with authDone := true }
      (.runMap split nred false :: extra) =
      ((records.map fun r => Event.mapCall r.1 r.2) ++
        [Event.closeMapper, Event.closeReader, Event.up UCmd.done],
       .finished) := by
  have hlt : ¬nred < 1 := by omega
  rcases hgl : records.getLast? with _ | r <;>
    simp [run, initState, contextClose, closeList, takeUntilFail, hlt, hgl]

/-- Witness for C2: a two-record reader with nred = 1: two map calls in
order, then mapper and reader close and a single DONE. -/
theorem c2_witness :
    ((1 : Int) ≤ 1) ∧
    run ⟨⟨false, false, false, some [([0], [1]), ([2], [3])]⟩,
          ⟨false, false, false, false⟩, none, fun _ _ => [], true⟩
      { initState ⟨⟨false, false, false, some [([0], [1]), ([2], [3])]⟩,
          ⟨false, false, false, false⟩, none, fun _ _ => [], true⟩ with
        authDone := true }
      (.runMap [] 1 false :: [.abort]) =
      (([([0], [1]), ([2], [3])].map fun r : Bytes × Bytes =>
          Event.mapCall r.1 r.2) ++
        [Event.closeMapper, Event.closeReader, Event.up UCmd.done],
       .finished) :=
  ⟨le_refl 1,
    c2_map_pull_path false false false true none (fun _ _ => [])
      [([0], [1]), ([2], [3])] [] 1 [.abort] (le_refl 1)⟩

/-! ### C6: the partitioner / reduce-count invariant

`create_partitioner` is called unconditionally at the end of the RUN_MAP
handler, but the map-only branch (`nred < 1`) can never get there: it needs
`context.job_conf.get_bool`, and the context's job configuration is either
the initial plain `{}` dict (no `get_bool`) or unreachable, because
SET_JOB_CONF always dies in `JobConf.__init__` (see the `setJobConf`
branch of `run`).  So in every state the engine can be in while still
reading commands, a present partitioner implies a positive reduce count. -/

/-- Invariant maintained by the dispatch loop: the context never acquires a
job configuration, and a partitioner is present only with reduce count ≥ 1. -/
def Inv (st : EngineState) : Prop :=
  st.jobConf = none ∧
    (st.partitioner = true → ∃ n : Int, st.nred = some n ∧ 1 ≤ n)

/-- `Inv` transported to the waiting state carried by an outcome. -/
def OutInv : Outcome → Prop
  | .exhaustedTop st => Inv st
  | .exhaustedReduce st => Inv st
  | _ => True

/-- `Inv` transported to the states carried by a grouping-loop outcome. -/
def RedOutInv : RedOutcome → Prop
  | .stopBody st _ => Inv st
  | .fellThrough st _ => Inv st
  | .exhausted st => Inv st
  | .fatal _ => True

theorem reduceLoop_inv_aux (cfg : Config) :
    ∀ (n : Nat) (cmds : List DCmd) (st : EngineState), cmds.length ≤ n →
      Inv st → RedOutInv (reduceLoop cfg st cmds).2 := by
  intro n
  induction n with
  | zero =>
      intro cmds st hlen hinv
      match cmds with
      | [] => simpa [reduceLoop, RedOutInv] using hinv
      | c :: rest => simp at hlen
  | succ n ih =>
      intro cmds st hlen hinv
      match cmds with
      | [] => simpa [reduceLoop, RedOutInv] using hinv
      | c :: rest =>
        have hr : rest.length ≤ n := by simp [List.length_cons] at hlen; omega
        obtain ⟨auth, jc, isp, ky, vl, mp, rdc, pt, rr, rwr, nr, pe⟩ := st
        cases auth with
        | false =>
            cases c with
            | authReq d ch =>
                rcases hv : verifyDigest cfg d ch with e | evs <;>
                  simp [reduceLoop, hv, RedOutInv]
            | start v => simp [reduceLoop, RedOutInv]
            | setJobConf items => simp [reduceLoop, RedOutInv]
            | runMap sp nred piped => simp [reduceLoop, RedOutInv]
            | setInputTypes kt vt => simp [reduceLoop, RedOutInv]
            | mapItem k v => simp [reduceLoop, RedOutInv]
            | runReduce part piped => simp [reduceLoop, RedOutInv]
            | reduceKey k => simp [reduceLoop, RedOutInv]
            | reduceValue v => simp [reduceLoop, RedOutInv]
            | close => simp [reduceLoop, RedOutInv]
            | abort => simp [reduceLoop, RedOutInv]
        | true =>
          cases c with
          | reduceKey k =>
              have hh := ih (rest.dropWhile isReduceKeyCmd)
                ⟨true, jc, isp, some k, vl, mp, rdc, pt, rr, rwr, nr, pe⟩
                (le_trans (length_dropWhile_le isReduceKeyCmd rest) hr)
                ⟨hinv.1, hinv.2⟩
              simp only [reduceLoop]
              simpa using hh
          | reduceValue v =>
              cases rdc
              · simp [reduceLoop, RedOutInv]
              · have hh := ih (takeValues rest).2
                  ⟨true, jc, isp, ky, vl, mp, true, pt, rr, rwr, nr, pe⟩
                  (le_trans (takeValues_length_le rest) hr) ⟨hinv.1, hinv.2⟩
                simp only [reduceLoop]
                simpa using hh
          | close =>
              cases hm : mp <;> simp [reduceLoop, RedOutInv] <;>
                exact ⟨hinv.1, hinv.2⟩
          | abort => simp [reduceLoop, RedOutInv]
          | authReq d ch =>
              rcases hv : verifyDigest cfg d ch with e | evs <;>
                simp [reduceLoop, hv, RedOutInv]
          | start v =>
              by_cases hver : v = protocolVersion <;>
                simp [reduceLoop, hver, RedOutInv]
          | setJobConf items =>
              by_cases hodd : items.length % 2 = 1 <;>
                simp [reduceLoop, hodd, RedOutInv]
          | setInputTypes kt vt => simp [reduceLoop, RedOutInv]
          | mapItem k v =>
              cases mp <;> simp [reduceLoop, RedOutInv]
          | runMap sp nred piped =>
              have hjc : jc = none := hinv.1
              subst hjc
              rcases hr2 : cfg.factory.reader with _ | records
              · cases piped
                · simp [reduceLoop, hr2, RedOutInv]
                · by_cases h3 : nred < 1
                  · -- map-only branch dies at get_bool: the job conf is none
                    simp [reduceLoop, hr2, h3, RedOutInv]
                  · -- piped nested RUN_MAP: handler returns None, TypeError
                    simp [reduceLoop, hr2, h3, RedOutInv]
              · cases piped
                · by_cases h3 : nred < 1
                  · simp [reduceLoop, hr2, h3, RedOutInv]
                  · -- nested pull loop, then fall through with the new state
                    rcases hgl : records.getLast? with _ | r <;>
                      simp [reduceLoop, hr2, h3, hgl, RedOutInv] <;>
                      exact ⟨rfl, fun _ => ⟨nred, rfl, by omega⟩⟩
                · simp [reduceLoop, hr2, RedOutInv]
          | runReduce part piped =>
              by_cases h1 : (cfg.factory.hasWriter && piped) = true
              · simp [reduceLoop, h1, RedOutInv]
              by_cases h2 : (!cfg.factory.hasWriter && !piped) = true
              · simp [reduceLoop, h1, h2, RedOutInv]
              have hih := ih rest
                ⟨true, jc, isp, ky, vl, mp, cfg.factory.hasReducer, pt, rr,
                  cfg.factory.hasWriter, nr, pe⟩ hr ⟨hinv.1, hinv.2⟩
              rcases hv : (reduceLoop cfg ⟨true, jc, isp, ky, vl, mp,
                  cfg.factory.hasReducer, pt, rr, cfg.factory.hasWriter, nr,
                  pe⟩ rest).2 with ⟨st2, r2⟩ | ⟨st2, r2⟩ | st2 | e
              all_goals rw [hv] at hih
              all_goals simp only [RedOutInv] at hih
              all_goals simp [reduceLoop, h1, h2, hv, RedOutInv]
              all_goals try exact hih

theorem reduceLoop_inv (cfg : Config) (cmds : List DCmd) (st : EngineState)
    (hinv : Inv st) : RedOutInv (reduceLoop cfg st cmds).2 :=
  reduceLoop_inv_aux cfg cmds.length cmds st le_rfl hinv

theorem run_inv_aux (cfg : Config) :
    ∀ (n : Nat) (cmds : List DCmd) (st : EngineState), cmds.length ≤ n →
      Inv st → OutInv (run cfg st cmds).2 := by
  intro n
  induction n with
  | zero =>
      intro cmds st hlen hinv
      match cmds with
      | [] => simpa [run, OutInv] using hinv
      | c :: rest => simp at hlen
  | succ n ih =>
      intro cmds st hlen hinv
      match cmds with
      | [] => simpa [run, OutInv] using hinv
      | c :: rest =>
        have hr : rest.length ≤ n := by simp [List.length_cons] at hlen; omega
        have hrest : ∀ st', Inv st' → OutInv (run cfg st' rest).2 :=
          fun st' h => ih rest st' hr h
        cases c with
        | authReq d ch =>
            rw [run]
            rcases hv : verifyDigest cfg d ch with e | evs
            · simp [OutInv]
            · simpa using hrest { st with authDone := true } ⟨hinv.1, hinv.2⟩
        | start v =>
            rw [run]
            by_cases ha : st.authDone
            · by_cases hver : v = protocolVersion
              · simpa [ha, hver] using hrest st hinv
              · simp [ha, hver, OutInv]
            · simp [ha, OutInv]
        | setJobConf items =>
            rw [run]
            by_cases ha : st.authDone
            · by_cases hodd : items.length % 2 = 1 <;> simp [ha, hodd, OutInv]
            · simp [ha, OutInv]
        | runMap sp nred piped =>
            rw [run]
            by_cases ha : st.authDone
            case neg => simp [ha, OutInv]
            rcases hr2 : cfg.factory.reader with _ | records
            · cases piped with
              | false => simp [ha, hr2, OutInv]
              | true =>
                  by_cases h3 : nred < 1
                  · -- map-only branch: the job conf is still absent, the
                    -- handler dies before create_partitioner
                    simp [ha, hr2, h3, hinv.1, OutInv]
                  · simpa [ha, hr2, h3] using
                      hrest { st with inputSplit := some sp,
                                      recordReader := cfg.factory.reader,
                                      nred := some nred, mapper := true,
                                      partitioner := cfg.factory.hasPartitioner }
                        ⟨hinv.1, fun _ => ⟨nred, rfl, by omega⟩⟩
            · cases piped with
              | true => simp [ha, hr2, OutInv]
              | false =>
                  by_cases h3 : nred < 1
                  · simp [ha, hr2, h3, hinv.1, OutInv]
                  · simp [ha, hr2, h3, OutInv]
        | setInputTypes kt vt =>
            rw [run]
            by_cases ha : st.authDone
            · simpa [ha] using hrest st hinv
            · simp [ha, OutInv]
        | mapItem k v =>
            rw [run]
            by_cases ha : st.authDone
            · by_cases hmp : st.mapper
              · simpa [ha, hmp] using
                  hrest { st with key := some k, value := some v }
                    ⟨hinv.1, hinv.2⟩
              · simp [ha, hmp, OutInv]
            · simp [ha, OutInv]
        | runReduce part piped =>
            obtain ⟨auth, jc, isp, ky, vl, mp, rdc, pt, rr, rwr, nr, pe⟩ := st
            cases auth with
            | false => simp [run, OutInv]
            | true =>
              by_cases h1 : (cfg.factory.hasWriter && piped) = true
              · simp [run, h1, OutInv]
              by_cases h2 : (!cfg.factory.hasWriter && !piped) = true
              · simp [run, h1, h2, OutInv]
              rw [run_runReduce_step cfg _ _ part piped rest rfl h1 h2 rfl]
              have hredinv := reduceLoop_inv cfg rest
                ⟨true, jc, isp, ky, vl, mp, cfg.factory.hasReducer, pt, rr,
                  cfg.factory.hasWriter, nr, pe⟩ ⟨hinv.1, hinv.2⟩
              have hlen2 := reduceLoop_rest_le cfg rest
                ⟨true, jc, isp, ky, vl, mp, cfg.factory.hasReducer, pt, rr,
                  cfg.factory.hasWriter, nr, pe⟩
              rcases hv : (reduceLoop cfg ⟨true, jc, isp, ky, vl, mp,
                  cfg.factory.hasReducer, pt, rr, cfg.factory.hasWriter, nr,
                  pe⟩ rest).2 with ⟨st2, r2⟩ | ⟨st2, r2⟩ | st2 | e
              all_goals rw [hv] at hredinv hlen2
              all_goals simp only [RedOutInv] at hredinv
              all_goals simp only [redRestLength] at hlen2
              all_goals simp [hv, OutInv]
              · exact ih r2 st2 (by omega) hredinv
              · exact hredinv
        | reduceKey k =>
            rw [run]
            by_cases ha : st.authDone
            · simpa [ha] using hrest st hinv
            · simp [ha, OutInv]
        | reduceValue v =>
            rw [run]
            by_cases ha : st.authDone
            · simpa [ha] using hrest st hinv
            · simp [ha, OutInv]
        | close =>
            rw [run]
            by_cases ha : st.authDone
            · by_cases hmp : st.mapper
              · simp [ha, hmp, OutInv]
              · simpa [ha, hmp] using hrest st hinv
            · simp [ha, OutInv]
        | abort =>
            rw [run]
            by_cases ha : st.authDone <;> simp [ha, OutInv]

theorem run_inv (cfg : Config) (cmds : List DCmd) (st : EngineState)
    (hinv : Inv st) : OutInv (run cfg st cmds).2 :=
  run_inv_aux cfg cmds.length cmds st le_rfl hinv

/-- C6: in every state the Task Context can be in while the engine is still
reading commands — in particular every state reached after a RUN_MAP or
RUN_REDUCE dispatch — a partitioner is present only when the reduce-task
count is at least 1.  (After RUN_MAP with numReduces < 1 the map-only branch
dies on the unusable job configuration before `create_partitioner`, so no
state with a partitioner and a low reduce count is ever reached.) -/
theorem c6_partitioner_needs_reduces (cfg : Config) (cmds : List DCmd)
    (st' : EngineState)
    (h : (run cfg (initState cfg) cmds).2 = .exhaustedTop st' ∨
         (run cfg (initState cfg) cmds).2 = .exhaustedReduce st')
    (hp : st'.partitioner = true) :
    ∃ n : Int, st'.nred = some n ∧ 1 ≤ n := by
  have h0 : Inv (initState cfg) := by simp [Inv, initState]
  have hm := run_inv cfg cmds (initState cfg) h0
  rcases h with h | h <;> rw [h] at hm <;> exact hm.2 hp

/-- Witness for C6: a factory supplying a partitioner, authenticating and
dispatching RUN_MAP with numReduces = 2 and host-piped input; the waiting
state holds a partitioner and its reduce count is 2 ≥ 1. -/
theorem c6_witness :
    ((run ⟨⟨false, true, false, none⟩, ⟨false, false, false, false⟩, none,
          fun _ _ => [], true⟩
        (initState ⟨⟨false, true, false, none⟩, ⟨false, false, false, false⟩,
          none, fun _ _ => [], true⟩)
        [.authReq [] [], .runMap [] 2 true]).2 =
      .exhaustedTop ⟨true, none, some [], none, none, true, false, true,
        none, false, some 2, true⟩ ∨
     (run ⟨⟨false, true, false, none⟩, ⟨false, false, false, false⟩, none,
          fun _ _ => [], true⟩
        (initState ⟨⟨false, true, false, none⟩, ⟨false, false, false, false⟩,
          none, fun _ _ => [], true⟩)
        [.authReq [] [], .runMap [] 2 true]).2 =
      .exhaustedReduce ⟨true, none, some [], none, none, true, false, true,
        none, false, some 2, true⟩) ∧
    EngineState.partitioner ⟨true, none, some [], none, none, true, false,
      true, none, false, some 2, true⟩ = true ∧
    ∃ n : Int,
      EngineState.nred ⟨true, none, some [], none, none, true, false, true,
        none, false, some 2, true⟩ = some n ∧ 1 ≤ n :=
  ⟨Or.inl (by simp [run, verifyDigest, initState]), rfl,
    c6_partitioner_needs_reduces
      ⟨⟨false, true, false, none⟩, ⟨false, false, false, false⟩, none,
        fun _ _ => [], true⟩
      [.authReq [] [], .runMap [] 2 true]
      ⟨true, none, some [], none, none, true, false, true, none, false,
        some 2, true⟩
      (Or.inl (by simp [run, verifyDigest, initState])) rfl⟩

/-! ## Dict lemmas for the JobConf claims -/

theorem lookup_dictInsert (m : List (String × String)) (a v k) :
    dictLookup (dictInsert m a v) k =
      if a = k then some v else dictLookup m k := by
  induction m with
  | nil => simp [dictInsert, dictLookup]
  | cons p rest ih =>
      by_cases h1 : p.1 = a
      · by_cases hak : a = k
        · simp [dictInsert, dictLookup, h1, hak]
        · have hpk : ¬p.1 = k := by rw [h1]; exact hak
          simp [dictInsert, dictLookup, h1, hak, hpk]
      · by_cases hpk : p.1 = k
        · have hak : ¬a = k := fun h => h1 (hpk.trans h.symm)
          have hka : ¬k = a := fun h => hak h.symm
          simp [dictInsert, dictLookup, h1, hpk, hak, hka]
        · simp [dictInsert, dictLookup, h1, hpk, ih]

theorem mem_dictInsert {q : String × String} :
    ∀ {m : List (String × String)} {a v}, q ∈ dictInsert m a v →
      q = (a, v) ∨ q ∈ m := by
  intro m
  induction m with
  | nil => intro a v h; simp [dictInsert] at h; simp [h]
  | cons p rest ih =>
      intro a v h
      rw [dictInsert] at h
      split at h
      · rcases List.mem_cons.1 h with h | h
        · exact Or.inl h
        · exact Or.inr (List.mem_cons_of_mem _ h)
      · rcases List.mem_cons.1 h with h | h
        · exact Or.inr (by simp [h])
        · rcases ih h with h | h
          · exact Or.inl h
          · exact Or.inr (List.mem_cons_of_mem _ h)

theorem dictInsert_of_forall_ne (m : List (String × String)) (k v)
    (h : ∀ p ∈ m, p.1 ≠ k) : dictInsert m k v = m ++ [(k, v)] := by
  induction m with
  | nil => simp [dictInsert]
  | cons p rest ih =>
      have hp : ¬p.1 = k := h p (by simp)
      simp only [dictInsert, if_neg hp, List.cons_append, List.cons.injEq,
        true_and]
      exact ih (fun q hq => h q (by simp [hq]))

theorem foldl_dictInsert_append :
    ∀ (ps m : List (String × String)), (ps.map Prod.fst).Nodup →
      (∀ p ∈ ps, ∀ q ∈ m, q.1 ≠ p.1) →
      ps.foldl (fun m p => dictInsert m p.1 p.2) m = m ++ ps := by
  intro ps
  induction ps with
  | nil => intro m _ _; simp
  | cons p rest ih =>
      intro m hnd hdis
      have hnd' : p.1 ∉ rest.map Prod.fst ∧ (rest.map Prod.fst).Nodup :=
        List.nodup_cons.1 (by simpa using hnd)
      rw [List.foldl_cons,
        dictInsert_of_forall_ne m p.1 p.2 (fun q hq => hdis p (by simp) q hq)]
      rw [ih (m ++ [(p.1, p.2)]) hnd'.2 ?_]
      · simp
      · intro r hr q hq
        rcases List.mem_append.1 hq with hq | hq
        · exact hdis r (by simp [hr]) q hq
        · have hqe : q = (p.1, p.2) := by simpa using hq
          subst hqe
          intro hcon
          have hcon' : p.1 = r.1 := hcon
          exact hnd'.1 (by
            rw [hcon']
            exact List.mem_map.2 ⟨r, hr, rfl⟩)

/-- A dict built from pairs with pairwise-distinct keys is those pairs in
order. -/
theorem dictOfPairs_eq_self (ps : List (String × String))
    (h : (ps.map Prod.fst).Nodup) : dictOfPairs ps = ps := by
  have := foldl_dictInsert_append ps [] h (by simp)
  simpa [dictOfPairs] using this

/-- Mirroring does nothing when no key of the dict appears in either alias
table. -/
theorem mirror_no_alias (t : MirrorTables) (self : List (String × String))
    (h : ∀ p ∈ self, dictLookup t.mrv1ToMrv2 p.1 = none ∧
                     dictLookup t.mrv2ToMrv1 p.1 = none) :
    mirrorConfAcrossVersions t self = self := by
  have hfold : ∀ (l acc : List (String × String)),
      (∀ p ∈ l, dictLookup t.mrv1ToMrv2 p.1 = none ∧
                dictLookup t.mrv2ToMrv1 p.1 = none) →
      l.foldl (mirrorStep t self) acc = acc := by
    intro l
    induction l with
    | nil => intro acc _; rfl
    | cons p rest ih =>
        intro acc hp
        rw [List.foldl_cons]
        have h1 := (hp p (by simp)).1
        have h2 := (hp p (by simp)).2
        rw [show mirrorStep t self acc p = acc by simp [mirrorStep, h1, h2]]
        exact ih acc (fun q hq => hp q (by simp [hq]))
  unfold mirrorConfAcrossVersions
  rw [hfold self [] h]
  rfl

/-- Looking a key up in a dict built by successive inserts finds the value
of its last occurrence among the inserted pairs. -/
theorem lookup_foldl_insert :
    ∀ (ps m : List (String × String)) (k : String),
      dictLookup (ps.foldl (fun m p => dictInsert m p.1 p.2) m) k =
        match ps.reverse.find? (fun p => p.1 = k) with
        | some q => some q.2
        | none => dictLookup m k := by
  intro ps
  induction ps with
  | nil => intro m k; simp
  | cons p rest ih =>
      intro m k
      rw [List.foldl_cons, ih]
      rw [List.reverse_cons, List.find?_append]
      cases hf : rest.reverse.find? (fun p => p.1 = k) with
      | some q => simp [Option.or]
      | none =>
          by_cases hpk : p.1 = k
          · simp [Option.or, hpk, lookup_dictInsert]
          · simp [Option.or, hpk, lookup_dictInsert]

theorem lookup_dictOfPairs (ps : List (String × String)) (k : String) :
    dictLookup (dictOfPairs ps) k =
      match ps.reverse.find? (fun p => p.1 = k) with
      | some q => some q.2
      | none => none := by
  rw [dictOfPairs, lookup_foldl_insert]
  cases ps.reverse.find? (fun p => p.1 = k) <;> simp [dictLookup]

/-- The keys recorded by the mirror scan are all absent from the dict. -/
theorem mirror_ext_keys (t : MirrorTables) (self : List (String × String)) :
    ∀ (l acc : List (String × String)),
      (∀ q ∈ acc, dictHasKey self q.1 = false) →
      ∀ q ∈ l.foldl (mirrorStep t self) acc, dictHasKey self q.1 = false := by
  intro l
  induction l with
  | nil => intro acc hacc q hq; exact hacc q hq
  | cons p rest ih =>
      intro acc hacc q hq
      refine ih (mirrorStep t self acc p) ?_ q hq
      intro r hr
      have step1 : ∀ (e : List (String × String)),
          (∀ x ∈ e, dictHasKey self x.1 = false) → ∀ a v,
          ∀ x ∈ (if dictHasKey self a then e else dictInsert e a v),
            dictHasKey self x.1 = false := by
        intro e he a v x hx
        split at hx
        · exact he x hx
        · rcases mem_dictInsert hx with hx | hx
          · rw [hx]
            simpa using Bool.of_not_eq_true (by assumption)
          · exact he x hx
      unfold mirrorStep at hr
      rcases h2 : dictLookup t.mrv2ToMrv1 p.1 with _ | a2 <;> rw [h2] at hr
      all_goals
        rcases h1 : dictLookup t.mrv1ToMrv2 p.1 with _ | a1 <;> rw [h1] at hr
      · exact hacc r hr
      · exact step1 acc hacc a1 p.2 r hr
      · exact step1 acc hacc a2 p.2 r hr
      · exact step1 _ (step1 acc hacc a1 p.2) a2 p.2 r hr

theorem lookup_foldl_insert_of_ne (k : String) :
    ∀ (ext m : List (String × String)), (∀ q ∈ ext, q.1 ≠ k) →
      dictLookup (ext.foldl (fun m p => dictInsert m p.1 p.2) m) k =
        dictLookup m k := by
  intro ext
  induction ext with
  | nil => intro m _; rfl
  | cons p rest ih =>
      intro m h
      rw [List.foldl_cons, ih _ (fun q hq => h q (by simp [hq])),
        lookup_dictInsert, if_neg (h p (by simp))]

theorem dictHasKey_eq_true_iff (m : List (String × String)) (k : String) :
    dictHasKey m k = true ↔ (dictLookup m k).isSome := by
  induction m with
  | nil => simp [dictHasKey, dictLookup]
  | cons p rest ih =>
      rw [show dictHasKey (p :: rest) k =
            (decide (p.1 = k) || dictHasKey rest k) from rfl]
      by_cases h : p.1 = k
      · simp [dictLookup, h]
      · simp [dictLookup, h, ih]

/-- Mirroring never changes the binding of a key already present. -/
theorem mirror_lookup_present (t : MirrorTables) (self : List (String × String))
    (k : String) (hk : dictHasKey self k = true) :
    dictLookup (mirrorConfAcrossVersions t self) k = dictLookup self k := by
  unfold mirrorConfAcrossVersions
  refine lookup_foldl_insert_of_ne k _ self ?_
  intro q hq
  have := mirror_ext_keys t self self [] (by simp) q hq
  intro hcon
  rw [hcon] at this
  rw [this] at hk
  exact Bool.false_ne_true hk

/-! ## Claims about JobConf -/

/-- Counterexample to C7 as stated: the stored string `" true "` is not a
case variant of `"true"` or `"false"` (case-insensitive comparison alone
does not match it), yet `get_bool` returns true instead of the supplied
default, because the code also strips whitespace (`v.strip().lower()`). -/
theorem c7_counterexample :
    JobConf.getBool [("k", " true ")] "k" (some false) = .ok (some true) ∧
    " true ".data.map pyLowerChar ≠ "true".data ∧
    " true ".data.map pyLowerChar ≠ "false".data :=
  ⟨rfl, by decide, by decide⟩

/-- C7 (amended): `get_bool` first strips leading/trailing whitespace from
the stored string and lowercases it; the results `"true"`/`"false"` map to
the booleans, and for every stored string that does not strip-and-lowercase
to one of these two words it returns the supplied default, or fails with a
fatal error when no default was supplied. -/
theorem c7_get_bool (m : List (String × String)) (k s : String)
    (d : Option Bool) (hl : dictLookup m k = some s) :
    (stripLower s = "true".data → JobConf.getBool m k d = .ok (some true)) ∧
    (stripLower s = "false".data → JobConf.getBool m k d = .ok (some false)) ∧
    (stripLower s ≠ "true".data → stripLower s ≠ "false".data →
      (∀ b, d = some b → JobConf.getBool m k d = .ok (some b)) ∧
      (d = none → JobConf.getBool m k d = .error "invalid bool string")) := by
  refine ⟨?_, ?_, ?_⟩
  · intro h; simp [JobConf.getBool, hl, h]
  · intro h; simp [JobConf.getBool, hl, h]
  · intro h1 h2
    constructor
    · intro b hb; simp [JobConf.getBool, hl, h1, h2, hb]
    · intro hd; simp [JobConf.getBool, hl, h1, h2, hd]

/-- Witness for C7: the stored string `"TRUE"` lowercases to `"true"` and
`get_bool` maps it to true even with no default. -/
theorem c7_witness :
    dictLookup [("k", "TRUE")] "k" = some "TRUE" ∧
    stripLower "TRUE" = "true".data ∧
    JobConf.getBool [("k", "TRUE")] "k" none = .ok (some true) :=
  ⟨by decide, by decide,
    (c7_get_bool [("k", "TRUE")] "k" "TRUE" none (by decide)).1 (by decide)⟩

/-- Counterexample to C8 as stated: for the even-length sequence
`[k, 1, k, 2]` with a duplicated key, the constructed mapping is
`[(k, 2)]`, which is not equal to the set of input pairs: the input pair
`(k, 1)` is missing from it. -/
theorem c8_counterexample :
    JobConf.build ⟨[], []⟩ ["k", "1", "k", "2"] = .ok [("k", "2")] ∧
    ("k", "1") ∈ toPairs ["k", "1", "k", "2"] ∧
    (("k", "1") ∈ ([("k", "2")] : List (String × String)) → False) :=
  ⟨rfl, by decide, by decide⟩

/-- C8 (amended): for every even-length flat sequence whose keys are
pairwise distinct and participate in no legacy/current aliasing, the
constructed mapping is exactly the input pairs with order preserved; and
construction from every odd-length sequence fails with an error. -/
theorem c8_jobconf_roundtrip (t : MirrorTables) (values : List String)
    (heven : values.length % 2 = 0)
    (hnodup : ((toPairs values).map Prod.fst).Nodup)
    (halias : ∀ p ∈ toPairs values,
      dictLookup t.mrv1ToMrv2 p.1 = none ∧
      dictLookup t.mrv2ToMrv1 p.1 = none) :
    JobConf.build t values = .ok (toPairs values) ∧
    ∀ odd : List String, odd.length % 2 = 1 →
      JobConf.build t odd =
        .error "JobConf.init: len(values) should be even" := by
  constructor
  · unfold JobConf.build
    rw [if_neg (by omega), dictOfPairs_eq_self _ hnodup,
      mirror_no_alias t _ halias]
  · intro odd hodd
    simp [JobConf.build, hodd]

/-- Witness for C8: distinct keys x, y not aliased by the table
`[("zz", "yy")]` round-trip in order. -/
theorem c8_witness :
    (["x", "1", "y", "2"].length % 2 = 0) ∧
    ((toPairs ["x", "1", "y", "2"]).map Prod.fst).Nodup ∧
    (∀ p ∈ toPairs ["x", "1", "y", "2"],
      dictLookup [("zz", "yy")] p.1 = none ∧
      dictLookup ([] : List (String × String)) p.1 = none) ∧
    JobConf.build ⟨[("zz", "yy")], []⟩ ["x", "1", "y", "2"] =
      .ok (toPairs ["x", "1", "y", "2"]) :=
  ⟨by decide, by decide, by decide,
    (c8_jobconf_roundtrip ⟨[("zz", "yy")], []⟩ ["x", "1", "y", "2"]
      (by decide) (by decide) (by decide)).1⟩

/-- C10 (implicit): for every even-length flat sequence in which some key
occurs more than once, construction succeeds and the mapping binds that key
to the value paired with its last occurrence (the values of earlier
occurrences are discarded). -/
theorem c10_duplicate_keys_last_wins (t : MirrorTables) (values : List String)
    (k : String) (heven : values.length % 2 = 0)
    (hdup : 2 ≤ ((toPairs values).map Prod.fst).count k) :
    ∃ m, JobConf.build t values = .ok m ∧
      dictLookup m k =
        ((toPairs values).reverse.find? (fun p => p.1 = k)).map Prod.snd := by
  refine ⟨mirrorConfAcrossVersions t (dictOfPairs (toPairs values)), ?_, ?_⟩
  · unfold JobConf.build
    rw [if_neg (by omega)]
  · have hmem : k ∈ (toPairs values).map Prod.fst := by
      have : 0 < ((toPairs values).map Prod.fst).count k := by omega
      exact List.count_pos_iff.1 this
    rcases List.mem_map.1 hmem with ⟨p, hp, hpk⟩
    have hfind : ((toPairs values).reverse.find? (fun q => q.1 = k)).isSome := by
      rw [List.find?_isSome]
      exact ⟨p, by simpa using hp, by simpa using hpk⟩
    rcases hq : (toPairs values).reverse.find? (fun q => q.1 = k) with _ | q
    · rw [hq] at hfind; simp at hfind
    · have hlook : dictLookup (dictOfPairs (toPairs values)) k = some q.2 := by
        rw [lookup_dictOfPairs, hq]
      have hhk : dictHasKey (dictOfPairs (toPairs values)) k = true := by
        rw [dictHasKey_eq_true_iff, hlook]
        rfl
      rw [mirror_lookup_present t _ k hhk, hlook, hq]
      rfl

/-- Witness for C10: `[k, 1, k, 2]` with a nonempty alias table: the key
maps to "2", the value of its last occurrence. -/
theorem c10_witness :
    (["k", "1", "k", "2"].length % 2 = 0) ∧
    (2 ≤ ((toPairs ["k", "1", "k", "2"]).map Prod.fst).count "k") ∧
    ∃ m, JobConf.build ⟨[("k", "ka")], []⟩ ["k", "1", "k", "2"] = .ok m ∧
      dictLookup m "k" =
        ((toPairs ["k", "1", "k", "2"]).reverse.find?
          (fun p => p.1 = "k")).map Prod.snd :=
  ⟨by decide, by decide,
    c10_duplicate_keys_last_wins ⟨[("k", "ka")], []⟩ ["k", "1", "k", "2"] "k"
      (by decide) (by decide)⟩

end Pydoop
